import Mathlib

/-!
Verification of the werft (keel) trigger-to-specification compiler core.

The development shallowly embeds the Go sources:
  - the `RunJob` pipeline and the trigger evaluator (`RepoConfig.ShouldRun`,
    `RepoConfig.TemplatePath`) from the service file;
  - the store contracts of `pkg/store/store.go` (`Jobs`, `Logs`); the file
    declares only interfaces, so their operational models are modelled from
    the specification document and flagged as such in their doc comments.

External libraries (yaml, text/template, io.Pipe) enter the embedding as
abstract components of a `RunEnv` record; the control flow around them is
translated statement by statement from `RunJob`.
-/

/-- Error values. `Err.raw` is a leaf error (as produced by `fmt.Errorf` or a
library); `Err.wrap ctx inner` embeds Go
`xerrors.Errorf("cannot handle push to %s: %w", ctx, inner)`: the wrapping
message carries the trigger context descriptor `ctx` and wraps `inner`. -/
inductive Err where
  | raw (msg : String)
  | wrap (ctx : String) (inner : Err)
deriving DecidableEq, Repr

/-- Source `store.go`: `ErrNotFound = fmt.Errorf("not found")`. -/
def ErrNotFound : Err := Err.raw "not found"

/-- Source `store.go`: `ErrAlreadyExists = fmt.Errorf("exists already")`. -/
def ErrAlreadyExists : Err := Err.raw "exists already"

/-- Modelled from the spec: the `JobContext` type is referenced by `RunJob`
but defined in a repository file that is not part of src. The spec describes
it as the owning identity (owner, repository name, revision). -/
structure JobContext where
  owner : String
  repo : String
  revision : String
deriving DecidableEq, Repr

/-- Modelled from the spec: `jc.String()`, the human-readable descriptor of a
trigger context used inside error messages. The exact format is not in src;
only the fact that it identifies owner, repository and revision matters. -/
def JobContext.descriptor (jc : JobContext) : String :=
  jc.owner ++ "/" ++ jc.repo ++ "@" ++ jc.revision

/-- Modelled from the spec: the closed enumeration of trigger kinds (push,
comment, creation); only push is wired to the pipeline. -/
inductive JobTrigger where
  | push
  | comment
  | creation
deriving DecidableEq, Repr

/-- Source: `RepoConfig` holds the single field `DefaultJob`. -/
structure RepoConfig where
  defaultJob : String
deriving DecidableEq, Repr

/-- Source: `TemplatePath` returns `rc.DefaultJob` for every trigger. -/
def RepoConfig.TemplatePath (rc : RepoConfig) (trigger : JobTrigger) : String :=
  rc.defaultJob

/-- Source: `ShouldRun` returns `true` for every trigger. -/
def RepoConfig.ShouldRun (rc : RepoConfig) (trigger : JobTrigger) : Bool :=
  true

/-- Modelled from the spec: the persisted `JobStatus` record (its Go type
lives in the api package, not in src): a unique name, an annotation set, a
lifecycle state and execution metadata. -/
structure JobStatus where
  name : String
  annotations : List (String × String)
  phase : Nat
  metadata : String
deriving DecidableEq, Repr

/-- Modelled from the spec: the `Jobs` store state is the list of stored
records, at most one per name (maintained by `Jobs.Store`). -/
def JobsDB := List JobStatus

/-- Modelled from the spec: `Jobs.Store` is an upsert by name with full
overwrite: a record whose name is present replaces every field of the stored
record; otherwise the record is appended. -/
def Jobs.Store (db : List JobStatus) (job : JobStatus) : List JobStatus :=
  if db.any (fun j => j.name == job.name) then
    db.map (fun j => if j.name == job.name then job else j)
  else
    db ++ [job]

/-- Modelled from the spec: `Jobs.Get` retrieves the record stored under a
name, or `ErrNotFound`. -/
def Jobs.Get (db : List JobStatus) (name : String) : Except Err JobStatus :=
  match db.find? (fun j => j.name == name) with
  | some j => Except.ok j
  | none => Except.error ErrNotFound

/-- Modelled from the spec: an annotation filter is a (key, match rule)
predicate over the annotation set. -/
structure AnnotationFilter where
  annotation : String
  value : String
deriving DecidableEq, Repr

/-- A record matches one filter when its annotation set maps the key to the
required value. -/
def matchesFilter (j : JobStatus) (f : AnnotationFilter) : Bool :=
  j.annotations.lookup f.annotation == some f.value

/-- Filters are ANDed together; the empty filter set matches everything. -/
def matchesAll (j : JobStatus) (fs : List AnnotationFilter) : Bool :=
  fs.all (matchesFilter j)

/-- The full filtered result set of a `Find` query, before paging. -/
def filteredSet (db : List JobStatus) (fs : List AnnotationFilter) : List JobStatus :=
  db.filter (fun j => matchesAll j fs)

/-- Modelled from the spec: `Jobs.Find` filters, then pages: `start` offsets
into the full filtered set, `limit = 0` means unbounded, and the returned
total is the size of the full filtered set. -/
def Jobs.Find (db : List JobStatus) (fs : List AnnotationFilter) (start limit : Nat) :
    List JobStatus × Nat :=
  let full := filteredSet db fs
  let page := full.drop start
  ((if limit = 0 then page else page.take limit), full.length)

/-- Modelled from the spec: the `Logs` store state. `blobs` are the committed
blobs (id to content); `placing` holds the ids whose `Place` call has started
and not yet returned. -/
structure LogsState where
  blobs : List (String × String)
  placing : List String
deriving DecidableEq, Repr

/-- Modelled from the spec: the moment a `Place(id, src)` call starts; the id
is in progress until the source is drained. -/
def Logs.PlaceStart (st : LogsState) (id : String) : LogsState :=
  { st with placing := id :: st.placing }

/-- Modelled from the spec: the moment `Place(id, src)` returns, having
drained `content` from the source: the blob is committed and the id is no
longer in progress. -/
def Logs.PlaceFinish (st : LogsState) (id : String) (content : String) : LogsState :=
  { blobs := (id, content) :: st.blobs.filter (fun e => decide (e.1 ≠ id)),
    placing := st.placing.filter (fun x => decide (x ≠ id)) }

/-- Modelled from the spec: `Logs.Read` returns `ErrNotFound` while a `Place`
for the id is in progress and when no blob was committed under the id;
otherwise it yields the committed content. -/
def Logs.Read (st : LogsState) (id : String) : Except Err String :=
  if id ∈ st.placing then Except.error ErrNotFound
  else
    match st.blobs.lookup id with
    | some c => Except.ok c
    | none => Except.error ErrNotFound

/-- Abstract handle for an open file stream returned by the file provider
(Go `io.ReadCloser`); `raw` is the content behind the handle. -/
structure FileStream where
  raw : String
deriving DecidableEq, Repr

/-- Abstract handle for a parsed template program (Go `template.Template`). -/
structure Template where
  src : String
deriving DecidableEq, Repr

/-- Abstract structured job specification (Go `corev1.PodSpec`), treated as
an opaque structured document. -/
structure PodSpec where
  fields : List (String × String)
deriving DecidableEq, Repr

/-- Environment of `RunJob`: the file provider `fp` and the external library
and subsystem calls the pipeline makes, each as an abstract function.
`decodeTruncated` is the outcome of the streaming spec decode when the render
side failed partway (the decoder then saw a truncated stream);
`decodePartial` is the value left in the `podspec` variable when the decode
returned an error (Go leaves the partially decoded zero-initialised struct). -/
structure RunEnv where
  fetch : String → Except Err FileStream
  decodeRepoConfig : FileStream → Except Err RepoConfig
  readAll : FileStream → Except Err String
  parseTemplate : String → Except Err Template
  render : Template → JobContext → Except Err String
  decodePodSpec : String → Except Err PodSpec
  decodeTruncated : Except Err PodSpec
  decodePartial : PodSpec
  start : PodSpec → List (String × String) → Except Err String

/-- Observable effects of one `RunJob` invocation, in order: file-provider
fetches, the spawn of the concurrent render/decode pair, and the call to the
execution subsystem. -/
inductive Effect where
  | fetched (path : String)
  | compileSpawned
  | startCalled (spec : PodSpec) (annotations : List (String × String))
deriving DecidableEq, Repr

/-- The pair `RunJob` returns: the job name and the error (`none` embeds the
Go nil error). -/
structure RunOutcome where
  name : String
  err : Option Err
deriving DecidableEq, Repr

/-- Source: the well-known configuration path literal `".keep.yaml"` fetched
first by `RunJob`. -/
def configPath : String := ".keep.yaml"

/-- Source: the annotation set `RunJob` hands to `Executor.Start`, built from
the trigger context (a Go map with keys owner, repo, rev). -/
def jobAnnotations (jc : JobContext) : List (String × String) :=
  [("owner", jc.owner), ("repo", jc.repo), ("rev", jc.revision)]

/-- Source: the wrapping every error return of `RunJob` applies,
`xerrors.Errorf("cannot handle push to %s: %w", jc.String(), err)`. -/
def wrapPush (jc : JobContext) (e : Err) : Err :=
  Err.wrap jc.descriptor e

/-- Source, decode goroutine body: `terr := Decode(...); if terr != nil
\x7b err = terr \x7d` — the shared `err` is overwritten whenever the decode
returned an error. -/
def decodeStep (decodeErr : Option Err) (err : Option Err) : Option Err :=
  match decodeErr with
  | some e => some e
  | none => err

/-- Source, render goroutine body: `terr := jobTpl.Execute(pw, jc); if err
!= nil \x7b err = terr \x7d` — note that the condition tests the shared
`err`, not `terr`: the render result (possibly nil) is written exactly when
the shared error is already set. -/
def renderStep (renderErr : Option Err) (err : Option Err) : Option Err :=
  match err with
  | some _ => renderErr
  | none => none

/-- The value of the shared `err` variable after both goroutines ran, as a
function of each side's own result and of the interleaving:
`decodeFirst = true` runs the decode write before the render check. -/
def raceFinalErr (decodeErr renderErr : Option Err) (decodeFirst : Bool) : Option Err :=
  if decodeFirst then renderStep renderErr (decodeStep decodeErr none)
  else decodeStep decodeErr (renderStep renderErr none)

/-- Source, lines 138-163: the concurrent render/decode phase, as the net
dataflow once the join barrier is passed. The render output feeds the decode
through the pipe; when the render failed the decoder saw a truncated stream
(`env.decodeTruncated`). The shared error is merged by `raceFinalErr` under
the interleaving `decodeFirst`. -/
def compileJob (env : RunEnv) (jobTpl : Template) (jc : JobContext) (decodeFirst : Bool) :
    Option Err × PodSpec :=
  let renderRes := env.render jobTpl jc
  let decodeRes :=
    match renderRes with
    | Except.ok rendered => env.decodePodSpec rendered
    | Except.error _ => env.decodeTruncated
  let renderErr :=
    match renderRes with
    | Except.ok _ => none
    | Except.error e => some e
  let decodeErr :=
    match decodeRes with
    | Except.ok _ => none
    | Except.error e => some e
  let podspec :=
    match decodeRes with
    | Except.ok p => p
    | Except.error _ => env.decodePartial
  (raceFinalErr decodeErr renderErr decodeFirst, podspec)

/-- Source, `RunJob`, statement by statement, generalised over the trigger
policy called at the `ShouldRun` seam (the shipped policy is
`RepoConfig.ShouldRun`; see `RunJob`). Returns the outcome together with the
trace of observable effects. -/
def RunJobWith (policy : RepoConfig → JobTrigger → Bool) (env : RunEnv) (jc : JobContext)
    (decodeFirst : Bool) : RunOutcome × List Effect :=
  match env.fetch configPath with
  | Except.error e => (⟨"", some (wrapPush jc e)⟩, [Effect.fetched configPath])
  | Except.ok keelYAML =>
  match env.decodeRepoConfig keelYAML with
  | Except.error e => (⟨"", some (wrapPush jc e)⟩, [Effect.fetched configPath])
  | Except.ok repoCfg =>
  if policy repoCfg JobTrigger.push = false then
    (⟨"", none⟩, [Effect.fetched configPath])
  else
    match env.fetch (repoCfg.TemplatePath JobTrigger.push) with
    | Except.error e =>
      (⟨"", some (wrapPush jc e)⟩,
       [Effect.fetched configPath, Effect.fetched (repoCfg.TemplatePath JobTrigger.push)])
    | Except.ok jobTplYAML =>
    match env.readAll jobTplYAML with
    | Except.error e =>
      (⟨"", some (wrapPush jc e)⟩,
       [Effect.fetched configPath, Effect.fetched (repoCfg.TemplatePath JobTrigger.push)])
    | Except.ok jobTplRaw =>
    match env.parseTemplate jobTplRaw with
    | Except.error e =>
      (⟨"", some (wrapPush jc e)⟩,
       [Effect.fetched configPath, Effect.fetched (repoCfg.TemplatePath JobTrigger.push)])
    | Except.ok jobTpl =>
    match compileJob env jobTpl jc decodeFirst with
    | (some e, _) =>
      (⟨"", some (wrapPush jc e)⟩,
       [Effect.fetched configPath, Effect.fetched (repoCfg.TemplatePath JobTrigger.push),
        Effect.compileSpawned])
    | (none, podspec) =>
    match env.start podspec (jobAnnotations jc) with
    | Except.error e =>
      (⟨"", some (wrapPush jc e)⟩,
       [Effect.fetched configPath, Effect.fetched (repoCfg.TemplatePath JobTrigger.push),
        Effect.compileSpawned, Effect.startCalled podspec (jobAnnotations jc)])
    | Except.ok name =>
      (⟨name, none⟩,
       [Effect.fetched configPath, Effect.fetched (repoCfg.TemplatePath JobTrigger.push),
        Effect.compileSpawned, Effect.startCalled podspec (jobAnnotations jc)])

/-- Source: `RunJob` with the shipped always-run trigger policy. -/
def RunJob (env : RunEnv) (jc : JobContext) (decodeFirst : Bool) : RunOutcome × List Effect :=
  RunJobWith RepoConfig.ShouldRun env jc decodeFirst

/-- State of the render/decode pair of `RunJob` around the `io.Pipe`:
`pending` are the bytes the render side has still to write, `buf` the bytes
written and not yet consumed, `seen` the bytes the decoder consumed,
`prodDone` and `consDone` whether each goroutine has returned (and called
`wg.Done()`), and `closedW` whether the write end of the pipe was closed. -/
structure PipeSys where
  pending : List Char
  buf : List Char
  seen : List Char
  prodDone : Bool
  consDone : Bool
  closedW : Bool
deriving DecidableEq, Repr

/-- Interleaving semantics of the two goroutines of `RunJob` (source lines
138-160). `failAfter` abstracts the streaming yaml decoder: it is true on a
consumed prefix exactly when the decoder aborts with an error there; on a
well-formed implicit document the decoder returns only upon the
end-of-stream signal, which `io.Pipe` raises only after the write end was
closed (rule `eof`). The source never calls `pw.Close()`: no rule sets
`closedW`. -/
inductive PipeStep (failAfter : List Char → Bool) : PipeSys → PipeSys → Prop where
  | write : ∀ (s : PipeSys) (b : Char) (rest : List Char),
      s.pending = b :: rest → s.prodDone = false →
      PipeStep failAfter s { s with pending := rest, buf := s.buf ++ [b] }
  | finish : ∀ s : PipeSys,
      s.pending = [] → s.prodDone = false →
      PipeStep failAfter s { s with prodDone := true }
  | read : ∀ (s : PipeSys) (b : Char) (rest : List Char),
      s.buf = b :: rest → s.consDone = false →
      PipeStep failAfter s
        { s with buf := rest, seen := s.seen ++ [b],
                 consDone := failAfter (s.seen ++ [b]) }
  | eof : ∀ s : PipeSys,
      s.buf = [] → s.closedW = true → s.consDone = false →
      PipeStep failAfter s { s with consDone := true }

/-- Reachability of the pipe system under every interleaving. -/
def pipeReachable (failAfter : List Char → Bool) : PipeSys → PipeSys → Prop :=
  Relation.ReflTransGen (PipeStep failAfter)

/-- Initial state of the compile phase: the render output `rendered` is yet
to be written, the pipe is empty and open, both goroutines are running. -/
def pipeInit (rendered : List Char) : PipeSys :=
  { pending := rendered, buf := [], seen := [], prodDone := false,
    consDone := false, closedW := false }

/-- The oracle of a decoder that never aborts early: the behaviour of the
streaming decode on a well-formed implicit yaml document, which terminates
only at end-of-stream. -/
def neverFails : List Char → Bool := fun _ => false

/-- Example trigger context used by the concrete evaluations below. -/
def jcEx : JobContext := ⟨"acme", "widgets", "refs/heads/main"⟩

/-- Example environment in which every phase succeeds: the configuration
fetch and decode yield a template path, the template parses, renders, the
rendered text decodes, and the executor assigns the name `job-42`. -/
def envOk : RunEnv :=
  { fetch := fun _ => Except.ok ⟨"defaultJob: build.yaml.tpl"⟩,
    decodeRepoConfig := fun _ => Except.ok ⟨"build.yaml.tpl"⟩,
    readAll := fun fs => Except.ok fs.raw,
    parseTemplate := fun s => Except.ok ⟨s⟩,
    render := fun _ _ => Except.ok "rendered",
    decodePodSpec := fun _ => Except.ok ⟨[("image", "x")]⟩,
    decodeTruncated := Except.ok ⟨[]⟩,
    decodePartial := ⟨[]⟩,
    start := fun _ _ => Except.ok "job-42" }

/-- Example environment identical to `envOk` except that the structured
decode of the rendered text fails. -/
def envBadDecode : RunEnv :=
  { envOk with decodePodSpec := fun _ => Except.error (Err.raw "bad spec yaml") }

/-- Example environment in which the configuration fetch fails. -/
def envNoConfig : RunEnv :=
  { envOk with fetch := fun _ => Except.error (Err.raw "404") }

/-- Example always-decline trigger policy, exercising the `ShouldRun` seam. -/
def policyNever : RepoConfig → JobTrigger → Bool := fun _ _ => false

theorem find_map_of_any (db : List JobStatus) (r : JobStatus)
    (h : db.any (fun j => j.name == r.name) = true) :
    (db.map (fun j => if j.name == r.name then r else j)).find?
        (fun j => j.name == r.name) = some r := by
  induction db with
  | nil => simp at h
  | cons a t ih =>
    rw [List.map_cons]
    by_cases ha : a.name = r.name
    · have hfa : (if a.name == r.name then r else a) = r := by simp [ha]
      rw [hfa]
      exact List.find?_cons_of_pos _ (by simp)
    · have ht : t.any (fun j => j.name == r.name) = true := by
        simp only [List.any_cons, Bool.or_eq_true, beq_iff_eq] at h
        rcases h with h | h
        · exact absurd h ha
        · simpa using h
      have hfa : (if a.name == r.name then r else a) = a := by simp [ha]
      rw [hfa, List.find?_cons_of_neg _ (by simpa using ha)]
      exact ih ht

theorem find_append_of_any_false (db : List JobStatus) (r : JobStatus)
    (h : db.any (fun j => j.name == r.name) = false) :
    (db ++ [r]).find? (fun j => j.name == r.name) = some r := by
  induction db with
  | nil => simp [List.find?]
  | cons a t ih =>
    simp only [List.any_cons, Bool.or_eq_false_iff] at h
    simp [List.find?_cons, h.1, ih h.2]

theorem get_store_self (db : List JobStatus) (r : JobStatus) :
    Jobs.Get (Jobs.Store db r) r.name = Except.ok r := by
  by_cases h : db.any (fun j => j.name == r.name) = true
  · have h1 : Jobs.Store db r = db.map (fun j => if j.name == r.name then r else j) := by
      unfold Jobs.Store
      rw [if_pos h]
    rw [h1]
    unfold Jobs.Get
    rw [find_map_of_any db r h]
  · have h0 : db.any (fun j => j.name == r.name) = false := by simpa using h
    have h1 : Jobs.Store db r = db ++ [r] := by
      unfold Jobs.Store
      rw [if_neg h]
    rw [h1]
    unfold Jobs.Get
    rw [find_append_of_any_false db r h0]

theorem any_name_map_replace (db : List JobStatus) (r : JobStatus) :
    (db.map (fun j => if j.name == r.name then r else j)).any
        (fun j => j.name == r.name) = db.any (fun j => j.name == r.name) := by
  induction db with
  | nil => rfl
  | cons a t ih =>
    rw [List.map_cons, List.any_cons, List.any_cons, ih]
    by_cases ha : a.name = r.name
    · have hfa : (if a.name == r.name then r else a) = r := by simp [ha]
      rw [hfa]
      simp [ha]
    · have hfa : (if a.name == r.name then r else a) = a := by simp [ha]
      rw [hfa]

theorem map_replace_idem (db : List JobStatus) (r : JobStatus) :
    (db.map (fun j => if j.name == r.name then r else j)).map
        (fun j => if j.name == r.name then r else j)
      = db.map (fun j => if j.name == r.name then r else j) := by
  induction db with
  | nil => rfl
  | cons a t ih =>
    rw [List.map_cons, List.map_cons, ih]
    by_cases ha : a.name = r.name
    · have hfa : (if a.name == r.name then r else a) = r := by simp [ha]
      rw [hfa]
      simp
    · have hfa : (if a.name == r.name then r else a) = a := by simp [ha]
      rw [hfa, hfa]

theorem map_replace_of_absent (db : List JobStatus) (r : JobStatus)
    (h : db.any (fun j => j.name == r.name) = false) :
    db.map (fun j => if j.name == r.name then r else j) = db := by
  induction db with
  | nil => rfl
  | cons a t ih =>
    simp only [List.any_cons, Bool.or_eq_false_iff] at h
    have ha : ¬a.name = r.name := by simpa using h.1
    have hfa : (if a.name == r.name then r else a) = a := by simp [ha]
    rw [List.map_cons, hfa, ih h.2]

theorem store_idem (db : List JobStatus) (r : JobStatus) :
    Jobs.Store (Jobs.Store db r) r = Jobs.Store db r := by
  by_cases h : db.any (fun j => j.name == r.name) = true
  · have h1 : Jobs.Store db r = db.map (fun j => if j.name == r.name then r else j) := by
      unfold Jobs.Store
      rw [if_pos h]
    rw [h1]
    have h2 : (db.map (fun j => if j.name == r.name then r else j)).any
        (fun j => j.name == r.name) = true := by
      rw [any_name_map_replace]
      exact h
    unfold Jobs.Store
    rw [if_pos h2]
    exact map_replace_idem db r
  · have h0 : db.any (fun j => j.name == r.name) = false := by simpa using h
    have h1 : Jobs.Store db r = db ++ [r] := by
      unfold Jobs.Store
      rw [if_neg h]
    rw [h1]
    have h2 : ((db ++ [r]).any (fun j => j.name == r.name)) = true := by
      simp [List.any_append]
    unfold Jobs.Store
    rw [if_pos h2]
    rw [List.map_append, map_replace_of_absent db r h0]
    simp

/-- Claim C4: `Jobs.Store` is an upsert by job name with full-overwrite
semantics: storing `r1` then `r2` (sharing a name) makes `Jobs.Get` of that
name return exactly `r2`, and storing the same record twice yields the same
final store state as storing it once. -/
theorem jobs_store_upsert_overwrite_idempotent (db : List JobStatus)
    (r1 r2 : JobStatus) (h : r1.name = r2.name) :
    Jobs.Get (Jobs.Store (Jobs.Store db r1) r2) r2.name = Except.ok r2 ∧
    Jobs.Store (Jobs.Store db r2) r2 = Jobs.Store db r2 :=
  ⟨get_store_self (Jobs.Store db r1) r2, store_idem db r2⟩

/-- Example records sharing the name `j1` with no field in common. -/
def jobA : JobStatus := ⟨"j1", [("owner", "acme")], 1, "m1"⟩

/-- Second example record under the name `j1`. -/
def jobB : JobStatus := ⟨"j1", [("rev", "r2")], 2, "m2"⟩

theorem jobs_store_upsert_overwrite_idempotent_witness :
    Jobs.Get (Jobs.Store (Jobs.Store [] jobA) jobB) jobB.name = Except.ok jobB ∧
    Jobs.Store (Jobs.Store [] jobB) jobB = Jobs.Store [] jobB :=
  jobs_store_upsert_overwrite_idempotent [] jobA jobB rfl

/-- Claim C5: `Jobs.Find` paging: the empty filter set applies no filtering;
limit 0 returns every filtered match from `start` onward; limit `k` returns
the at most `k` records starting at offset `start`; the returned total is
the size of the full filtered set, independent of `start` and `limit`. -/
theorem jobs_find_paging (db : List JobStatus) (fs : List AnnotationFilter)
    (start k : Nat) (hk : k ≠ 0) :
    filteredSet db [] = db ∧
    (Jobs.Find db fs start 0).1 = (filteredSet db fs).drop start ∧
    (Jobs.Find db fs start k).1 = ((filteredSet db fs).drop start).take k ∧
    (Jobs.Find db fs start k).1.length ≤ k ∧
    (Jobs.Find db fs start 0).2 = (filteredSet db fs).length ∧
    (Jobs.Find db fs start k).2 = (filteredSet db fs).length := by
  refine ⟨?_, ?_, ?_, ?_, ?_, ?_⟩
  · simp [filteredSet, matchesAll, List.filter_true]
  · simp [Jobs.Find]
  · simp [Jobs.Find, hk]
  · simp only [Jobs.Find, if_neg hk]
    exact List.length_take_le k _
  · simp [Jobs.Find]
  · simp [Jobs.Find, hk]

theorem jobs_find_paging_witness :
    filteredSet [jobA] [] = [jobA] ∧
    (Jobs.Find [jobA] [] 0 0).1 = (filteredSet [jobA] []).drop 0 ∧
    (Jobs.Find [jobA] [] 0 1).1 = ((filteredSet [jobA] []).drop 0).take 1 ∧
    (Jobs.Find [jobA] [] 0 1).1.length ≤ 1 ∧
    (Jobs.Find [jobA] [] 0 0).2 = (filteredSet [jobA] []).length ∧
    (Jobs.Find [jobA] [] 0 1).2 = (filteredSet [jobA] []).length :=
  jobs_find_paging [jobA] [] 0 1 (by decide)

/-- Claim C6: `Logs.Read` returns `ErrNotFound` exactly when either a
`Place` for the id is still in progress or no blob was committed under the
id, and once `Place(id, src)` has returned, `Logs.Read id` yields exactly
the content that was placed. -/
theorem logs_read_place_contract (st : LogsState) (id content : String) :
    Logs.Read (Logs.PlaceFinish st id content) id = Except.ok content ∧
    Logs.Read (Logs.PlaceStart st id) id = Except.error ErrNotFound ∧
    (Logs.Read st id = Except.error ErrNotFound ↔
      (id ∈ st.placing ∨ st.blobs.lookup id = none)) := by
  refine ⟨?_, ?_, ?_⟩
  · have hmem : id ∉ st.placing.filter (fun x => decide (x ≠ id)) := by
      intro hm
      rcases List.mem_filter.mp hm with ⟨-, hx⟩
      simp at hx
    simp [Logs.Read, Logs.PlaceFinish, hmem, List.lookup]
  · simp [Logs.Read, Logs.PlaceStart]
  · unfold Logs.Read
    by_cases hp : id ∈ st.placing
    · simp [hp]
    · rw [if_neg hp]
      cases hl : st.blobs.lookup id <;> simp [hp, hl]

/-- Claim C8: the trigger evaluator is the minimal always-run policy:
`ShouldRun` returns true and `TemplatePath` returns the configured default
template path, independent of the trigger kind. Both are plain functions of
their inputs in this embedding, hence side-effect free. -/
theorem trigger_evaluator_always_runs_default_path (rc : RepoConfig) (t : JobTrigger) :
    rc.ShouldRun t = true ∧ rc.TemplatePath t = rc.defaultJob :=
  ⟨rfl, rfl⟩

/-- Claim C7: the compile phase is deterministic on valid inputs: when the
render of the parsed template succeeds and the rendered text decodes, the
outcome of the concurrent phase is independent of the interleaving, and two
runs with the same trigger context produce the identical specification. -/
theorem compile_deterministic (env : RunEnv) (jobTpl : Template) (jc : JobContext)
    (rendered : String) (p : PodSpec)
    (hr : env.render jobTpl jc = Except.ok rendered)
    (hd : env.decodePodSpec rendered = Except.ok p)
    (b1 b2 : Bool) :
    compileJob env jobTpl jc b1 = compileJob env jobTpl jc b2 ∧
    compileJob env jobTpl jc b1 = (none, p) := by
  have h : ∀ b : Bool, compileJob env jobTpl jc b = (none, p) := by
    intro b
    cases b <;> simp [compileJob, raceFinalErr, decodeStep, renderStep, hr, hd]
  exact ⟨(h b1).trans (h b2).symm, h b1⟩

theorem compile_deterministic_witness :
    compileJob envOk ⟨"t"⟩ jcEx true = compileJob envOk ⟨"t"⟩ jcEx false ∧
    compileJob envOk ⟨"t"⟩ jcEx true = (none, ⟨[("image", "x")]⟩) :=
  compile_deterministic envOk ⟨"t"⟩ jcEx "rendered" ⟨[("image", "x")]⟩ rfl rfl true false

/-- Claim C10: when the trigger policy at the `ShouldRun` seam declines, the
pipeline returns an empty name and no error, and its effect trace stops at
the configuration fetch: the template is not fetched, the concurrent compile
pair is not spawned, and `Start` is never called. -/
theorem runjob_decline_returns_empty_no_effects (policy : RepoConfig → JobTrigger → Bool)
    (env : RunEnv) (jc : JobContext) (decodeFirst : Bool) (fs : FileStream)
    (cfg : RepoConfig)
    (hfetch : env.fetch configPath = Except.ok fs)
    (hcfg : env.decodeRepoConfig fs = Except.ok cfg)
    (hrun : policy cfg JobTrigger.push = false) :
    RunJobWith policy env jc decodeFirst = (⟨"", none⟩, [Effect.fetched configPath]) := by
  simp [RunJobWith, hfetch, hcfg, hrun]

theorem runjob_decline_returns_empty_no_effects_witness :
    RunJobWith policyNever envOk jcEx true = (⟨"", none⟩, [Effect.fetched configPath]) :=
  runjob_decline_returns_empty_no_effects policyNever envOk jcEx true
    ⟨"defaultJob: build.yaml.tpl"⟩ ⟨"build.yaml.tpl"⟩ rfl rfl rfl

/-- Claim C1 (failing evaluation): the shared error merge of the concurrent
phase loses a reported failure. With the render side succeeding and the
decode side failing, under the interleaving in which the decode goroutine
records its error before the render goroutine runs its
`if err != nil` check, the render goroutine overwrites the recorded failure
with its own nil result: `RunJob` returns a job name and a nil error even
though the spec decode failed, because `raceFinalErr` ends at `none`. -/
theorem runjob_race_loses_decode_error :
    envBadDecode.decodePodSpec "rendered" = Except.error (Err.raw "bad spec yaml") ∧
    raceFinalErr (some (Err.raw "bad spec yaml")) none true = none ∧
    raceFinalErr (some (Err.raw "first")) (some (Err.raw "second")) true
      = some (Err.raw "second") ∧
    (RunJob envBadDecode jcEx true).1 = ⟨"job-42", none⟩ :=
  ⟨rfl, rfl, rfl, rfl⟩

/-- Claim C3: every error `RunJob` returns — configuration fetch or decode,
template fetch, read or parse, the merged compile-phase error, or the
submission error — is wrapped with the originating trigger context
descriptor, so the failing repository and revision are identifiable from the
error value alone. -/
theorem runjob_errors_wrap_descriptor (policy : RepoConfig → JobTrigger → Bool)
    (env : RunEnv) (jc : JobContext) (decodeFirst : Bool) (e : Err)
    (h : (RunJobWith policy env jc decodeFirst).1.err = some e) :
    ∃ inner : Err, e = Err.wrap jc.descriptor inner := by
  unfold RunJobWith at h
  repeat' split at h
  all_goals simp [wrapPush] at h
  all_goals exact ⟨_, h.symm⟩

theorem runjob_errors_wrap_descriptor_witness :
    ∃ inner : Err, Err.wrap jcEx.descriptor (Err.raw "404") = Err.wrap jcEx.descriptor inner :=
  runjob_errors_wrap_descriptor RepoConfig.ShouldRun envNoConfig jcEx true
    (Err.wrap jcEx.descriptor (Err.raw "404")) rfl

/-- Claim C9: whenever the pipeline calls the execution subsystem, the
annotation set it forwards is exactly owner, repo, rev taken from the
trigger context; and when the call succeeds and `RunJob` returns without
error, the returned name is the one the execution subsystem assigned. -/
theorem runjob_start_annotations_and_name (policy : RepoConfig → JobTrigger → Bool)
    (env : RunEnv) (jc : JobContext) (decodeFirst : Bool)
    (spec : PodSpec) (a : List (String × String))
    (h : Effect.startCalled spec a ∈ (RunJobWith policy env jc decodeFirst).2) :
    a = jobAnnotations jc ∧
    ((RunJobWith policy env jc decodeFirst).1.err = none →
      env.start spec a = Except.ok (RunJobWith policy env jc decodeFirst).1.name) := by
  revert h
  unfold RunJobWith
  repeat' split
  all_goals intro h
  all_goals simp at h
  · obtain ⟨hs, ha⟩ := h
    subst hs
    subst ha
    exact ⟨rfl, by simp⟩
  · obtain ⟨hs, ha⟩ := h
    subst hs
    subst ha
    refine ⟨rfl, fun _ => ?_⟩
    assumption

theorem runjob_start_annotations_and_name_witness :
    jobAnnotations jcEx = jobAnnotations jcEx ∧
    ((RunJobWith RepoConfig.ShouldRun envOk jcEx true).1.err = none →
      envOk.start ⟨[("image", "x")]⟩ (jobAnnotations jcEx)
        = Except.ok (RunJobWith RepoConfig.ShouldRun envOk jcEx true).1.name) :=
  runjob_start_annotations_and_name RepoConfig.ShouldRun envOk jcEx true
    ⟨[("image", "x")]⟩ (jobAnnotations jcEx) (by decide)

/-- Claim C2 (failing invariant): because `RunJob` never closes the write end
of the pipe, in every reachable state of the concurrent phase the write end
is still open, and with a decoder that only returns at end-of-stream (the
well-formed-document case, oracle `neverFails`) the decode goroutine has not
terminated in any reachable state, under any interleaving: the
`wg.Wait()` join barrier of `RunJob` is never passed. -/
theorem pipe_decode_never_terminates (rendered : List Char) (s : PipeSys)
    (h : pipeReachable neverFails (pipeInit rendered) s) :
    s.consDone = false ∧ s.closedW = false := by
  induction h with
  | refl => exact ⟨rfl, rfl⟩
  | tail hr hstep ih =>
    cases hstep with
    | write b rest hp hd => exact ⟨ih.1, ih.2⟩
    | finish hp hd => exact ⟨ih.1, ih.2⟩
    | read b rest hb hc => exact ⟨rfl, ih.2⟩
    | eof hb hw hc =>
      rw [ih.2] at hw
      cases hw

theorem pipe_decode_never_terminates_witness :
    (pipeInit []).consDone = false ∧ (pipeInit []).closedW = false :=
  pipe_decode_never_terminates [] (pipeInit []) Relation.ReflTransGen.refl
